import Mathlib

/-!
Shallow embedding of the SANGRIA repository (src/RAG/URL_Crawler.py and
src/RAG/Split_Markdown.py) in Lean 4, together with theorems settling the
frozen claims about the crawler and the markdown splitter.

Python machine-level collaborators (urllib.parse, os.path.splitext, str
methods, hashlib.md5) are modelled faithfully for the inputs exercised
here; HTML parsing (BeautifulSoup) is modelled by an explicit node tree
with the specific query operations the source uses; the html2text
converter and the network fetch are abstract parameters, as the source
treats them as black boxes.
-/

set_option maxRecDepth 40000

/-! ## Generic character-list helpers (Python string primitives) -/

/-- Python str.startswith on character lists: listLeads pat cs is true when
pat is an initial segment of cs. -/
def listLeads : List Char → List Char → Bool
  | [], _ => true
  | _ :: _, [] => false
  | a :: as, b :: bs => a == b && listLeads as bs

/-- Python str.startswith for strings. -/
def strLeads (s pat : String) : Bool := listLeads pat.data s.data

/-- Python substring test (pat in s) on character lists. -/
def containsSub (pat : List Char) : List Char → Bool
  | [] => pat.isEmpty
  | c :: rest => listLeads pat (c :: rest) || containsSub pat rest

/-- Python substring test (pat in s) for strings. -/
def strContains (s pat : String) : Bool := containsSub pat.data s.data

/-- ASCII lower-casing of one character, as Python str.lower acts on the
ASCII URLs handled here. -/
def lowerChar (c : Char) : Char :=
  if 65 ≤ c.toNat ∧ c.toNat ≤ 90 then Char.ofNat (c.toNat + 32) else c

/-- Python str.lower (ASCII fragment). -/
def pyLower (s : String) : String := String.mk (s.data.map lowerChar)

/-- Whitespace set recognised by Python str.strip(). -/
def pyWS (c : Char) : Bool :=
  c == ' ' || c == '\t' || c == '\n' || c == '\r' || c == '\x0b' || c == '\x0c'

/-- Python str.strip() with no argument: trims whitespace at both ends. -/
def stripWS (s : String) : String :=
  String.mk (((s.data.dropWhile pyWS).reverse.dropWhile pyWS).reverse)

/-- Python str.strip(c) for a single character argument. -/
def stripCharBoth (c : Char) (cs : List Char) : List Char :=
  ((cs.dropWhile (fun x => x == c)).reverse.dropWhile (fun x => x == c)).reverse

/-- One step bound of Python str.replace: the fuel argument bounds the scan
length, and is instantiated with the length of the scanned list, which is
sufficient because each step consumes at least one character. -/
def replaceFuel (pat rep : List Char) : Nat → List Char → List Char
  | 0, l => l
  | _ + 1, [] => []
  | f + 1, c :: rest =>
    if listLeads pat (c :: rest) then
      rep ++ replaceFuel pat rep f (List.drop (pat.length - 1) rest)
    else c :: replaceFuel pat rep f rest

/-- Python str.replace (all non-overlapping occurrences, left to right). -/
def pyReplace (s pat rep : String) : String :=
  String.mk (replaceFuel pat.data rep.data s.data.length s.data)

/-- Index of the last occurrence of a character (Python str.rfind). -/
def lastIdxOf (c : Char) (cs : List Char) : Option Nat :=
  match cs.reverse.findIdx? (fun x => x == c) with
  | none => none
  | some i => some (cs.length - 1 - i)

/-! ## urllib.parse model: scheme, netloc, path, urljoin -/

/-- Characters admissible inside a URL scheme. -/
def schemeChar (c : Char) : Bool := c.isAlphanum || c == '+' || c == '-' || c == '.'

/-- Split off a valid scheme, returning (scheme, rest after the colon);
mirrors the scheme recognition done by urllib.parse.urlsplit. -/
def schemeSplit (cs : List Char) : Option (List Char) × List Char :=
  let pre := cs.takeWhile (fun c => c != ':')
  match pre with
  | [] => (none, cs)
  | c :: _ =>
    if c.isAlpha && pre.all schemeChar && decide (pre.length < cs.length) then
      (some pre, cs.drop (pre.length + 1))
    else (none, cs)

/-- The netloc and path components of urllib.parse.urlparse: the authority
is present only after a double slash, and both stop at query or fragment
delimiters. -/
def urlNetlocPath (url : String) : List Char × List Char :=
  let rest := (schemeSplit url.data).2
  if listLeads ['/', '/'] rest then
    let after := rest.drop 2
    let nl := after.takeWhile (fun c => !(c == '/' || c == '?' || c == '#'))
    (nl, (after.drop nl.length).takeWhile (fun c => !(c == '?' || c == '#')))
  else ([], rest.takeWhile (fun c => !(c == '?' || c == '#')))

/-- urlparse(url).netloc. -/
def urlNetloc (url : String) : String := String.mk (urlNetlocPath url).1

/-- urlparse(url).path. -/
def urlPath (url : String) : String := String.mk (urlNetlocPath url).2

/-- urlparse(url).scheme, or the empty string when no scheme is present. -/
def urlSchemeStr (url : String) : String :=
  match (schemeSplit url.data).1 with
  | some s => String.mk s
  | none => ""

/-- The authority component as the specification of claim C4 words it:
scheme together with host and optional port. -/
def specAuthority (url : String) : String × String := (urlSchemeStr url, urlNetloc url)

/-- Directory part of a path: everything up to and including the last
slash, defaulting to the root slash. -/
def dirPart (path : List Char) : List Char :=
  let kept := (path.reverse.dropWhile (fun c => !(c == '/'))).reverse
  if kept.isEmpty then ['/'] else kept

/-- urllib.parse.urljoin restricted to the URL shapes the crawler feeds it:
absolute references, network-path, absolute-path and relative-path
references against an absolute base. -/
def urljoin (base url : String) : String :=
  if url == "" then base
  else
    match (schemeSplit url.data).1 with
    | some _ => url
    | none =>
      let sch := urlSchemeStr base
      if listLeads ['/', '/'] url.data then sch ++ ":" ++ url
      else if listLeads ['/'] url.data then sch ++ "://" ++ urlNetloc base ++ url
      else sch ++ "://" ++ urlNetloc base ++ String.mk (dirPart (urlPath base).data) ++ url

/-! ## hashlib.md5 model -/

/-- Truncation to a 32 bit machine word. -/
def w32 (n : Nat) : Nat := n % 4294967296

/-- Rotate a 32 bit word left by s bits (the two summands occupy disjoint
bit ranges, so addition realises the bitwise or). -/
def rotl32 (x s : Nat) : Nat := (x * 2 ^ s) % 4294967296 + x / 2 ^ (32 - s)

/-- The 64 MD5 sine-derived constants. -/
def md5K : List Nat :=
  [0xd76aa478, 0xe8c7b756, 0x242070db, 0xc1bdceee, 0xf57c0faf, 0x4787c62a, 0xa8304613, 0xfd469501,
   0x698098d8, 0x8b44f7af, 0xffff5bb1, 0x895cd7be, 0x6b901122, 0xfd987193, 0xa679438e, 0x49b40821,
   0xf61e2562, 0xc040b340, 0x265e5a51, 0xe9b6c7aa, 0xd62f105d, 0x02441453, 0xd8a1e681, 0xe7d3fbc8,
   0x21e1cde6, 0xc33707d6, 0xf4d50d87, 0x455a14ed, 0xa9e3e905, 0xfcefa3f8, 0x676f02d9, 0x8d2a4c8a,
   0xfffa3942, 0x8771f681, 0x6d9d6122, 0xfde5380c, 0xa4beea44, 0x4bdecfa9, 0xf6bb4b60, 0xbebfbc70,
   0x289b7ec6, 0xeaa127fa, 0xd4ef3085, 0x04881d05, 0xd9d4d039, 0xe6db99e5, 0x1fa27cf8, 0xc4ac5665,
   0xf4292244, 0x432aff97, 0xab9423a7, 0xfc93a039, 0x655b59c3, 0x8f0ccc92, 0xffeff47d, 0x85845dd1,
   0x6fa87e4f, 0xfe2ce6e0, 0xa3014314, 0x4e0811a1, 0xf7537e82, 0xbd3af235, 0x2ad7d2bb, 0xeb86d391]

/-- The 64 MD5 per-round left-rotation amounts. -/
def md5S : List Nat :=
  [7, 12, 17, 22, 7, 12, 17, 22, 7, 12, 17, 22, 7, 12, 17, 22,
   5, 9, 14, 20, 5, 9, 14, 20, 5, 9, 14, 20, 5, 9, 14, 20,
   4, 11, 16, 23, 4, 11, 16, 23, 4, 11, 16, 23, 4, 11, 16, 23,
   6, 10, 15, 21, 6, 10, 15, 21, 6, 10, 15, 21, 6, 10, 15, 21]

/-- One of the 64 MD5 mixing steps; M indexes the 16 message words of the
current block. -/
def md5Step (M : Nat → Nat) (st : Nat × Nat × Nat × Nat) (i : Nat) : Nat × Nat × Nat × Nat :=
  let a := st.1
  let b := st.2.1
  let c := st.2.2.1
  let d := st.2.2.2
  let fg : Nat × Nat :=
    if i < 16 then (Nat.land b c + Nat.land (4294967295 - b) d, i)
    else if i < 32 then (Nat.land d b + Nat.land (4294967295 - d) c, (5 * i + 1) % 16)
    else if i < 48 then (Nat.xor b (Nat.xor c d), (3 * i + 5) % 16)
    else (Nat.xor c (Nat.lor b (4294967295 - d)), (7 * i) % 16)
  let x := w32 (a + fg.1 + md5K.getD i 0 + M fg.2)
  (d, w32 (b + rotl32 x (md5S.getD i 0)), b, c)

/-- Process one 64 byte block, updating the four word chaining state. -/
def md5Block (st : Nat × Nat × Nat × Nat) (block : List Nat) : Nat × Nat × Nat × Nat :=
  let M : Nat → Nat := fun g =>
    block.getD (4 * g) 0 + 256 * block.getD (4 * g + 1) 0 +
      65536 * block.getD (4 * g + 2) 0 + 16777216 * block.getD (4 * g + 3) 0
  let r := (List.range 64).foldl (md5Step M) st
  (w32 (st.1 + r.1), w32 (st.2.1 + r.2.1), w32 (st.2.2.1 + r.2.2.1), w32 (st.2.2.2 + r.2.2.2))

/-- Cut a byte list into 64 byte blocks; the fuel is instantiated with the
number of blocks. -/
def chunksOf64 : Nat → List Nat → List (List Nat)
  | 0, _ => []
  | _ + 1, [] => []
  | fuel + 1, bs => bs.take 64 :: chunksOf64 fuel (bs.drop 64)

/-- UTF-8 encoding of one character (Python str.encode). -/
def utf8Bytes (c : Char) : List Nat :=
  let n := c.toNat
  if n < 128 then [n]
  else if n < 2048 then [192 + n / 64, 128 + n % 64]
  else if n < 65536 then [224 + n / 4096, 128 + n / 64 % 64, 128 + n % 64]
  else [240 + n / 262144, 128 + n / 4096 % 64, 128 + n / 64 % 64, 128 + n % 64]

/-- MD5 padding: a 1 bit, zeros to 56 mod 64 bytes, then the 64 bit
little-endian bit length. -/
def md5Pad (msg : List Nat) : List Nat :=
  let len := msg.length
  let zeros := (119 - len % 64) % 64
  msg ++ [128] ++ List.replicate zeros 0 ++ ((List.range 8).map fun i => 8 * len / 256 ^ i % 256)

/-- Lower-case hexadecimal digit. -/
def hexChar (n : Nat) : Char := "0123456789abcdef".data.getD n '0'

/-- Two hexadecimal characters of one byte. -/
def byteHex (b : Nat) : List Char := [hexChar (b / 16), hexChar (b % 16)]

/-- hashlib.md5(s.encode()).hexdigest(). -/
def md5hex (s : String) : String :=
  let msg := s.data.flatMap utf8Bytes
  let padded := md5Pad msg
  let blocks := chunksOf64 (padded.length / 64) padded
  let r := blocks.foldl md5Block (0x67452301, 0xefcdab89, 0x98badcfe, 0x10325476)
  let outBytes := [r.1, r.2.1, r.2.2.1, r.2.2.2].flatMap fun wrd =>
    (List.range 4).map fun i => wrd / 256 ^ i % 256
  String.mk (outBytes.flatMap byteHex)

/-! ## URL_Crawler.py: is_external_url and get_safe_filename -/

/-- is_external_url from URL_Crawler.py: compares the netloc components and
requires the candidate netloc to be non-empty. -/
def is_external_url (base_url url : String) : Bool :=
  let base_domain := urlNetloc base_url
  let url_domain := urlNetloc url
  !(base_domain == url_domain) && !(url_domain == "")

/-- The characters replaced as illegal for filenames in URL_Crawler.py. -/
def illegalChars : List Char := ['\\', '/', '*', '?', ':', '"', '<', '>', '|']

/-- os.path.splitext(p)[0]: drop the extension after the last dot of the
final path component, unless that component consists only of leading dots
up to that position. -/
def splitextStem (p : List Char) : List Char :=
  match lastIdxOf '.' p with
  | none => p
  | some di =>
    let fi := match lastIdxOf '/' p with | none => 0 | some si => si + 1
    if decide (fi ≤ di) && ((p.drop fi).take (di - fi)).any (fun c => !(c == '.')) then
      p.take di
    else p

/-- The sanitised base name built by get_safe_filename before the length
check: netloc with www. removed, extension-free path stripped of slashes,
illegal characters to underscore, dots and spaces to dash. -/
def url_base_name (url : String) : String :=
  let netloc := pyReplace (urlNetloc url) "www." ""
  let path0 := stripCharBoth '/' (urlPath url).data
  let path := if path0.isEmpty then [] else splitextStem path0
  let base_name := if path.isEmpty then netloc.data else netloc.data ++ '_' :: path
  let s1 := base_name.map (fun c => if illegalChars.contains c then '_' else c)
  String.mk (s1.map (fun c => if c == '.' || c == ' ' then '-' else c))

/-- get_safe_filename from URL_Crawler.py. -/
def get_safe_filename (url suffix : String) : String :=
  let b := url_base_name url
  let base_name :=
    if 100 < b.length then
      String.mk (b.data.take 50) ++ "_" ++ String.mk ((md5hex url).data.take 10)
    else b
  if suffix == "" then base_name else base_name ++ "_" ++ suffix

/-! ## BeautifulSoup model: node tree and the queries the source uses -/

mutual
/-- A parsed HTML node: either a text node (NavigableString) or an element
with tag name, attributes and children. -/
inductive Node where
  | text (s : String)
  | elem (tag : String) (attrs : List (String × String)) (children : NodeList)
deriving Repr
/-- Child lists, mutually inductive with Node so that all tree traversals
are structurally recursive. -/
inductive NodeList where
  | nil
  | cons (head : Node) (tail : NodeList)
deriving Repr
end

/-- Convert a NodeList to an ordinary list. -/
def NodeList.toList : NodeList → List Node
  | .nil => []
  | .cons n rest => n :: rest.toList

/-- Build a NodeList from an ordinary list. -/
def NodeList.ofList : List Node → NodeList
  | [] => .nil
  | n :: rest => .cons n (NodeList.ofList rest)

/-- First value of an attribute, none on text nodes or missing keys. -/
def Node.attrVal : Node → String → Option String
  | .text _, _ => none
  | .elem _ attrs _, k => (attrs.find? (fun p => p.1 == k)).map (fun p => p.2)

/-- Tag name of an element; text nodes have no tag. -/
def Node.tagOf : Node → String
  | .text _ => ""
  | .elem t _ _ => t

/-- Whether the node is an element (a Tag in BeautifulSoup terms). -/
def Node.isElem : Node → Bool
  | .text _ => false
  | .elem _ _ _ => true

/-- Whether the node is an element with the given tag name. -/
def Node.tagIs (n : Node) (t : String) : Bool := n.isElem && n.tagOf == t

/-- Whitespace-separated tokens of a string (for the multi-valued class
attribute). -/
def wsTokens (cs : List Char) : List String :=
  let parts := List.foldr
    (fun c acc =>
      match acc with
      | [] => if pyWS c then [[]] else [[c]]
      | h :: t => if pyWS c then [] :: h :: t else (c :: h) :: t)
    ([] : List (List Char)) cs
  (parts.filter (fun p => !p.isEmpty)).map String.mk

/-- Whether an element carries the given CSS class (class attribute split
on whitespace, as BeautifulSoup matches class_=...). -/
def Node.hasClass (n : Node) (c : String) : Bool :=
  match n.attrVal "class" with
  | none => false
  | some v => (wsTokens v.data).contains c

/-- Concatenated text of all descendant text nodes (Tag.get_text). -/
def getTextL : NodeList → String
  | .nil => ""
  | .cons (.text s) rest => s ++ getTextL rest
  | .cons (.elem _ _ cs) rest => getTextL cs ++ getTextL rest

/-- Tag.get_text for a single node. -/
def Node.getText (n : Node) : String := getTextL (NodeList.cons n .nil)

/-- Children of a node as a NodeList. -/
def Node.childrenL : Node → NodeList
  | .text _ => .nil
  | .elem _ _ cs => cs

/-- First node in document order (preorder) satisfying the predicate; this
is BeautifulSoup soup.find over a forest. -/
def findFirstP (p : Node → Bool) : NodeList → Option Node
  | .nil => none
  | .cons n rest =>
    if p n then some n
    else
      match n with
      | .text _ => findFirstP p rest
      | .elem _ _ cs =>
        match findFirstP p cs with
        | some m => some m
        | none => findFirstP p rest

/-- All href values of anchor elements with an href attribute, in document
order (find_all("a", href=True) over descendants). -/
def anchorHrefs : NodeList → List String
  | .nil => []
  | .cons n rest =>
    match n with
    | .text _ => anchorHrefs rest
    | .elem t attrs cs =>
      (match attrs.find? (fun p => p.1 == "href") with
       | some p => if t == "a" then [p.2] else []
       | none => []) ++ anchorHrefs cs ++ anchorHrefs rest

/-- Every h2 or h3 descendant in document order, each paired with the list
of its following siblings (find_all(["h2","h3"]) plus the sibling context
needed for find_next_sibling walks). -/
def headingsWithSibs : NodeList → List (Node × List Node)
  | .nil => []
  | .cons n rest =>
    match n with
    | .text _ => headingsWithSibs rest
    | .elem t a cs =>
      (if t == "h2" || t == "h3" then [(Node.elem t a cs, rest.toList)] else []) ++
        headingsWithSibs cs ++ headingsWithSibs rest

/-! ## URL_Crawler.py: get_page_links -/

/-- The fixed blocklist of URL substrings skipped by get_page_links. -/
def skip_patterns : List String :=
  ["login", "logout", "signup", "register", "contact", "browse", "zip", "download",
   "pdf", "doc", "xls", "ppt", "docx", "xlsx", "pptx"]

/-- The per-href filter chain of get_page_links, folded over the anchor
hrefs in document order. -/
def linksFilter (base_url : String) (allow_external : Bool) : List String → List String
  | [] => []
  | href :: rest =>
    let keep := linksFilter base_url allow_external rest
    if strLeads href "#" || strLeads href "javascript:" then keep
    else
      let full_url := urljoin base_url href
      if !allow_external && is_external_url base_url full_url then keep
      else if skip_patterns.any (fun pat => strContains (pyLower full_url) pat) then keep
      else full_url :: keep

/-- First defined value of a list of finder results, realising the
short-circuit or chains over soup.find results. -/
def firstSome : List (Option Node) → Option Node
  | [] => none
  | some n :: _ => some n
  | none :: rest => firstSome rest

/-- get_page_links from URL_Crawler.py: choose the link scope (main, else
article, else body), then filter every anchor href. -/
def get_page_links (soup : NodeList) (base_url : String) (allow_external : Bool) : List String :=
  match firstSome
      [findFirstP (fun n => n.tagIs "main") soup,
       findFirstP (fun n => n.tagIs "article") soup,
       findFirstP (fun n => n.tagIs "body") soup] with
  | none => []
  | some main_content => linksFilter base_url allow_external (anchorHrefs main_content.childrenL)

/-! ## URL_Crawler.py: content selection, sections, page writes, crawl -/

/-- The inline content-selector chain of crawl_to_markdown: id "content",
else first main, else first article, else first div of class "content",
else the body. -/
def selectMainContent (soup : NodeList) : Option Node :=
  match findFirstP (fun n => n.attrVal "id" == some "content") soup with
  | some m => some m
  | none =>
    match findFirstP (fun n => n.tagIs "main") soup with
    | some m => some m
    | none =>
      match findFirstP (fun n => n.tagIs "article") soup with
      | some m => some m
      | none =>
        match findFirstP (fun n => n.tagIs "div" && n.hasClass "content") soup with
        | some m => some m
        | none => findFirstP (fun n => n.tagIs "body") soup

/-- Page title: first title element, else first h1, text stripped, else the
placeholder "Untitled". -/
def pageTitle (soup : NodeList) : String :=
  match findFirstP (fun n => n.tagIs "title") soup with
  | some t => stripWS t.getText
  | none =>
    match findFirstP (fun n => n.tagIs "h1") soup with
    | some t => stripWS t.getText
    | none => "Untitled"

/-- The fixed skip-list of section titles. -/
def skip_sections : List String :=
  ["References", "See also", "External links", "Notes", "Bibliography",
   "Comments", "Related", "Share", "Tags"]

/-- The inline section-title sanitiser of crawl_to_markdown: illegal
characters removed, result stripped, dots and spaces to dash. -/
def sanitizeSectionTitle (t : String) : String :=
  let s1 := t.data.filter (fun c => !illegalChars.contains c)
  let s2 := stripWS (String.mk s1)
  String.mk (s2.data.map (fun c => if c == '.' || c == ' ' then '-' else c))

/-- Candidate sections of the selected content: every h2/h3 descendant with
its index, stripped title, and body = element siblings up to but excluding
the next h2/h3 sibling (find_next_sibling walks skip text nodes). -/
def sectionCandidates (mc : Node) : List (Nat × String × List Node) :=
  (headingsWithSibs mc.childrenL).enum.map fun p =>
    (p.1, stripWS p.2.1.getText,
      (p.2.2.filter Node.isElem).takeWhile
        (fun n => !(n.tagIs "h2" || n.tagIs "h3")))

/-- Sections that survive the loop's three skips: non-empty title, title not
starting with a skip-list entry, non-empty body. -/
def retainedSections (mc : Node) : List (Nat × String × List Node) :=
  (sectionCandidates mc).filter fun c =>
    !(c.2.1 == "") && !(skip_sections.any (fun sk => strLeads c.2.1 sk)) && !c.2.2.isEmpty

/-- Filename of a section file: base, underscore, sanitised title with the
ordinal fallback, and the .md extension. -/
def sectionFileName (base : String) (i : Nat) (t : String) : String :=
  let safe0 := sanitizeSectionTitle t
  base ++ "_" ++ (if safe0 == "" then "section_" ++ toString i else safe0) ++ ".md"

/-- The section files written for one page: one per retained section, with
the heading as header and the Source line, body converted by the
html2text collaborator conv. -/
def sectionWrites (conv : List Node → String) (url base : String) (mc : Node) :
    List (String × String) :=
  (retainedSections mc).map fun c =>
    (sectionFileName base c.1 c.2.1,
      "# " ++ c.2.1 ++ "\n\nSource: " ++ url ++ "\n\n" ++ conv c.2.2)

/-- All files written for one successfully processed page: the whole-page
file followed by the section files. -/
def pageWrites (conv : List Node → String) (url : String) (soup : NodeList) (mc : Node) :
    List (String × String) :=
  let base := get_safe_filename url ""
  (base ++ ".md",
    "# " ++ pageTitle soup ++ "\n\nSource: " ++ url ++ "\n\n" ++ conv [mc]) ::
    sectionWrites conv url base mc

/-- The mutable crawl state: visited URLs in insertion order, URLs for which
a fetch was attempted, and the files written as (name, content) pairs, the
name being relative to the fixed output directory. -/
structure CrawlState where
  visited : List String
  fetched : List String
  writes : List (String × String)
deriving Repr, DecidableEq

/-- crawl_to_markdown from URL_Crawler.py. The site parameter is the fetch
and parse collaborator (none on fetch failure) and conv the html2text
converter. The fuel argument makes the depth-bounded recursion structural;
it is instantiated with max_depth + 1 and, exactly like the source's depth
cap, strictly decreases on each recursive hop, so it is never exhausted
while current_depth < max_depth holds. -/
def crawlF (site : String → Option NodeList) (conv : List Node → String)
    (allow_external : Bool) (max_depth : Nat) :
    Nat → String → Nat → CrawlState → CrawlState
  | 0, _, _, s => s
  | fuel + 1, url, current_depth, s =>
    if url ∈ s.visited then s
    else
      let s1 : CrawlState := { s with visited := s.visited ++ [url] }
      let s2 : CrawlState := { s1 with fetched := s1.fetched ++ [url] }
      match site url with
      | none => s2
      | some soup =>
        match selectMainContent soup with
        | none => s2
        | some mc =>
          let s3 : CrawlState := { s2 with writes := s2.writes ++ pageWrites conv url soup mc }
          if current_depth < max_depth then
            (get_page_links soup url allow_external).foldl
              (fun acc link =>
                if link ∈ acc.visited then acc
                else crawlF site conv allow_external max_depth fuel link (current_depth + 1) acc)
              s3
          else s3

/-- Entry point of crawl_to_markdown: depth 0, fresh visited set. -/
def crawl_to_markdown (site : String → Option NodeList) (conv : List Node → String)
    (url : String) (max_depth : Nat) (allow_external : Bool) : CrawlState :=
  crawlF site conv allow_external max_depth (max_depth + 1) url 0 ⟨[], [], []⟩

/-! ## Split_Markdown.py: is_heading and split_by_headings -/

/-- Python content.split(newline) on character lists. -/
def splitNLCs : List Char → List (List Char)
  | [] => [[]]
  | c :: rest =>
    match splitNLCs rest with
    | [] => [[]]
    | h :: t => if c == '\n' then [] :: h :: t else (c :: h) :: t

/-- Python content.split(newline) for strings. -/
def pySplitLines (s : String) : List String := (splitNLCs s.data).map String.mk

/-- Inverse of splitNLCs: interleave a newline between the parts. -/
def joinCs : List (List Char) → List Char
  | [] => []
  | [x] => x
  | x :: y :: t => x ++ '\n' :: joinCs (y :: t)

/-- Python newline.join(lines). -/
def joinNL : List String → String
  | [] => ""
  | [x] => x
  | x :: y :: t => x ++ "\n" ++ joinNL (y :: t)

/-- is_heading from Split_Markdown.py: the regex of one to six hash marks
followed by a whitespace character, returning (matched, level). -/
def is_heading (line : String) : Bool × Nat :=
  let k := (line.data.takeWhile (fun c => c == '#')).length
  let ws := match line.data.drop k with | c :: _ => pyWS c | [] => false
  if 1 ≤ k ∧ k ≤ 6 ∧ ws = true then (true, k) else (false, 0)

/-- A chunk as returned by split_by_headings: heading line, content joined
by newlines, heading level. -/
structure MDChunk where
  heading : String
  content : String
  level : Nat
deriving Repr, DecidableEq

/-- A chunk while being accumulated: the content is still the list of
lines, joined only when the chunk is emitted. -/
structure MDAcc where
  heading : String
  content : List String
  level : Nat
deriving Repr, DecidableEq

/-- Emit the current chunk unless it has neither heading nor content. -/
def chunkPush (cur : MDAcc) (acc : List MDAcc) : List MDAcc :=
  if cur.heading == "" && cur.content.isEmpty then acc else acc ++ [cur]

/-- Whether a line is a heading that split_by_headings splits at, honouring
max_heading_level. -/
def inScope (maxLevel : Option Nat) (line : String) : Bool :=
  let ih := is_heading line
  ih.1 && (match maxLevel with | none => true | some m => decide (ih.2 ≤ m))

/-- The line loop of split_by_headings, before the final join of each
chunk's content lines. -/
def splitCore (maxLevel : Option Nat) : List String → MDAcc → List MDAcc → List MDAcc
  | [], cur, acc => chunkPush cur acc
  | line :: rest, cur, acc =>
    if inScope maxLevel line then
      splitCore maxLevel rest ⟨line, [], (is_heading line).2⟩ (chunkPush cur acc)
    else
      splitCore maxLevel rest { cur with content := cur.content ++ [line] } acc

/-- split_by_headings from Split_Markdown.py. -/
def split_by_headings (content : String) (maxLevel : Option Nat) : List MDChunk :=
  (splitCore maxLevel (pySplitLines content) ⟨"", [], 0⟩ []).map
    fun c => ⟨c.heading, joinNL c.content, c.level⟩

/-- The lines a chunk contributes on reconstruction: its heading line when
non-empty, then its accumulated content lines. -/
def chunkLines (c : MDAcc) : List String :=
  (if c.heading == "" then [] else [c.heading]) ++ c.content

/-! ## Concrete fixtures used by the claims -/

/-- Element constructor over plain lists, for readable fixtures. -/
def el (t : String) (attrs : List (String × String)) (ns : List Node) : Node :=
  Node.elem t attrs (NodeList.ofList ns)

/-- Text node constructor. -/
def tx (s : String) : Node := Node.text s

/-- A concrete html2text stand-in used to instantiate the converter
collaborator in examples: the concatenated text of the nodes. -/
def convText (ns : List Node) : String := String.join (ns.map Node.getText)

/-- Seed URL A of the two-page cyclic site. -/
def urlA : String := "https://s.example/a"

/-- URL B of the two-page cyclic site. -/
def urlB : String := "https://s.example/b"

/-- Page A: body content with a section and a link to B. -/
def docA : NodeList :=
  NodeList.ofList [el "html" []
    [el "head" [] [el "title" [] [tx "A"]],
     el "body" []
       [el "h2" [] [tx "Top"], el "p" [] [tx "pa"],
        el "a" [("href", "/b")] [tx "to b"]]]]

/-- Page B: body content with a link back to A. -/
def docB : NodeList :=
  NodeList.ofList [el "html" []
    [el "head" [] [el "title" [] [tx "B"]],
     el "body" [] [el "p" [] [tx "pb"], el "a" [("href", "/a")] [tx "to a"]]]]

/-- The cyclic link graph A to B to A. -/
def siteCycle (u : String) : Option NodeList :=
  if u == urlA then some docA else if u == urlB then some docB else none

/-- Document with no id "content", no main, no article, no div of class
"content", but a span of class "content" inside the body. -/
def exDoc3 : NodeList :=
  NodeList.ofList [el "html" []
    [el "body" [] [el "span" [("class", "content")] [tx "S"]]]]

/-- The content selector as claim C3 words it: the fourth fallback accepts
an element of class "content" of any tag. -/
def selectMainContentClaim (soup : NodeList) : Option Node :=
  match findFirstP (fun n => n.attrVal "id" == some "content") soup with
  | some m => some m
  | none =>
    match findFirstP (fun n => n.tagIs "main") soup with
    | some m => some m
    | none =>
      match findFirstP (fun n => n.tagIs "article") soup with
      | some m => some m
      | none =>
        match findFirstP (fun n => n.hasClass "content") soup with
        | some m => some m
        | none => findFirstP (fun n => n.tagIs "body") soup

/-- The amended specification selector: the same ordered fallback chain
with the fourth candidate restricted to div elements of class "content",
phrased as a priority list. -/
def selectMainContentSpec (soup : NodeList) : Option Node :=
  firstSome
    [findFirstP (fun n => n.attrVal "id" == some "content") soup,
     findFirstP (fun n => n.tagIs "main") soup,
     findFirstP (fun n => n.tagIs "article") soup,
     findFirstP (fun n => n.tagIs "div" && n.hasClass "content") soup,
     findFirstP (fun n => n.tagIs "body") soup]

/-- Seed of the three-page site used for the missing-content branch. -/
def url3a : String := "https://s3.example/a"

/-- Second page of the three-page site: no content container at all. -/
def url3nb : String := "https://s3.example/nb"

/-- Third page of the three-page site: a normal page. -/
def url3c : String := "https://s3.example/c"

/-- Site where the seed links to a contentless page and a normal page. -/
def site3 (u : String) : Option NodeList :=
  if u == url3a then
    some (NodeList.ofList [el "html" []
      [el "head" [] [el "title" [] [tx "A3"]],
       el "body" []
         [el "p" [] [tx "x"],
          el "a" [("href", "/nb")] [tx "n"], el "a" [("href", "/c")] [tx "c"]]]])
  else if u == url3nb then
    some (NodeList.ofList [el "html" [] [el "head" [] []]])
  else if u == url3c then
    some (NodeList.ofList [el "html" []
      [el "head" [] [el "title" [] [tx "C3"]],
       el "body" [] [el "p" [] [tx "y"]]]])
  else none

/-- The content of claim C5: an Intro section followed by a References
section. -/
def exContent5 : Node :=
  el "div" [("id", "content")]
    [el "h2" [] [tx "Intro"], el "p" [] [tx "x"],
     el "h2" [] [tx "References"], el "p" [] [tx "y"]]

/-- Observable projection of a section: index, title, body length. -/
def sectionObs (c : Nat × String × List Node) : Nat × String × Nat :=
  (c.1, c.2.1, c.2.2.length)

/-- Document of claim C6: content with a pdf link and a plain link. -/
def doc6 : NodeList :=
  NodeList.ofList [el "html" []
    [el "body" []
      [el "a" [("href", "https://site.com/file.pdf")] [tx "f"],
       el "a" [("href", "/ok")] [tx "k"]]]]

/-- Base URL of claim C6. -/
def base6 : String := "https://site.com/x"

/-- URL of the one-section page of claim C7. -/
def url7 : String := "https://s7.example/page"

/-- Document of claim C7: a titled page whose body has one Intro section. -/
def doc7 : NodeList :=
  NodeList.ofList [el "html" []
    [el "head" [] [el "title" [] [tx "T7"]],
     el "body" [] [el "h2" [] [tx "Intro"], el "p" [] [tx "x"]]]]

/-- The body node of doc7, the selected main content. -/
def mc7 : Node :=
  el "body" [] [el "h2" [] [tx "Intro"], el "p" [] [tx "x"]]

/-- A URL whose sanitised base name exceeds 100 characters. -/
def url8 : String := "https://example.com/" ++ String.mk (List.replicate 150 'a')

/-! ## Model validation against the reference behaviour of the Python
library collaborators -/

/-- The MD5 model matches the reference digest of the string abc. -/
theorem md5hex_abc : md5hex "abc" = "900150983cd24fb0d6963f7d28e17f72" := by decide

/-- The MD5 model matches the reference digest of the empty string. -/
theorem md5hex_empty : md5hex "" = "d41d8cd98f00b204e9800998ecf8427e" := by decide

/-- The urlparse model returns the expected netloc, empty netloc for
relative references, and query-free path. -/
theorem urlparse_model_checks :
    urlNetloc "https://a.com/x" = "a.com" ∧ urlNetloc "/relative" = "" ∧
    urlPath "https://a.com/x?q=1" = "/x" := by
  refine ⟨by decide, by decide, by decide⟩

/-- The urljoin model resolves absolute-path, relative-path and absolute
references as urllib does. -/
theorem urljoin_model_checks :
    urljoin "https://s.example/a" "/b" = "https://s.example/b" ∧
    urljoin "https://s.example/a" "b" = "https://s.example/b" ∧
    urljoin "https://s.example/a/" "b" = "https://s.example/a/b" ∧
    urljoin "https://s.example/a" "https://t.example/c" = "https://t.example/c" := by
  refine ⟨by decide, by decide, by decide, by decide⟩

/-- The filename codec matches the reference output on a www-prefixed URL
with a path and an extension. -/
theorem get_safe_filename_model_check :
    get_safe_filename "https://www.example.com/docs/page.html" "" = "example-com_docs_page" := by
  decide

/-- The splitext model keeps dotfiles whole and drops only the last
extension; the replace model removes every occurrence. -/
theorem path_string_model_checks :
    splitextStem "a/.hidden".data = "a/.hidden".data ∧
    splitextStem "a/b.c.d".data = "a/b.c".data ∧
    pyReplace "www.x.www.com" "www." "" = "x.com" := by
  refine ⟨by decide, by decide, by decide⟩

/-! ## Helper lemmas -/

/-- Appending a fresh URL to both lists preserves the visited and fetched
invariants. -/
theorem stepInv {v f : List String} {url : String}
    (hn : v.Nodup) (hsub : f ⊆ v) (hf : f.Nodup) (hv : url ∉ v) :
    (v ++ [url]).Nodup ∧ f ++ [url] ⊆ v ++ [url] ∧ (f ++ [url]).Nodup := by
  refine ⟨?_, ?_, ?_⟩
  · simp [List.nodup_append, hn, hv]
  · intro a ha
    rcases List.mem_append.1 ha with h | h
    · exact List.mem_append_left _ (hsub h)
    · exact List.mem_append_right _ h
  · have hnf : url ∉ f := fun h => hv (hsub h)
    simp [List.nodup_append, hf, hnf]

/-- The crawl recursion preserves: visited has no duplicates, every fetched
URL is visited, and fetched has no duplicates. Insertion into visited
happens before the fetch and guards every recursive call, so no URL is
ever fetched twice regardless of cycles in the link graph. -/
theorem crawlF_inv (site : String → Option NodeList) (conv : List Node → String)
    (ae : Bool) (m : Nat) :
    ∀ fuel url d s, s.visited.Nodup ∧ s.fetched ⊆ s.visited ∧ s.fetched.Nodup →
      ((crawlF site conv ae m fuel url d s).visited.Nodup ∧
        (crawlF site conv ae m fuel url d s).fetched ⊆ (crawlF site conv ae m fuel url d s).visited ∧
        (crawlF site conv ae m fuel url d s).fetched.Nodup) := by
  intro fuel
  induction fuel with
  | zero => intro url d s h; simpa [crawlF] using h
  | succ fl ih =>
    intro url d s h
    obtain ⟨hn, hsub, hf⟩ := h
    by_cases hv : url ∈ s.visited
    · simpa [crawlF, hv] using ⟨hn, hsub, hf⟩
    · have hstep := stepInv hn hsub hf hv
      have fold : ∀ (links : List String) (s' : CrawlState),
          s'.visited.Nodup ∧ s'.fetched ⊆ s'.visited ∧ s'.fetched.Nodup →
          ((links.foldl (fun acc link =>
              if link ∈ acc.visited then acc
              else crawlF site conv ae m fl link (d + 1) acc) s').visited.Nodup ∧
            (links.foldl (fun acc link =>
              if link ∈ acc.visited then acc
              else crawlF site conv ae m fl link (d + 1) acc) s').fetched ⊆
              (links.foldl (fun acc link =>
                if link ∈ acc.visited then acc
                else crawlF site conv ae m fl link (d + 1) acc) s').visited ∧
            (links.foldl (fun acc link =>
              if link ∈ acc.visited then acc
              else crawlF site conv ae m fl link (d + 1) acc) s').fetched.Nodup) := by
        intro links
        induction links with
        | nil => intro s' h'; simpa using h'
        | cons l ls ihl =>
          intro s' h'
          simp only [List.foldl_cons]
          apply ihl
          by_cases hl : l ∈ s'.visited
          · simpa [hl] using h'
          · simpa [hl] using ih l (d + 1) s' h'
      simp only [crawlF, if_neg hv]
      split
      · exact ⟨hstep.1, hstep.2.1, hstep.2.2⟩
      · split
        · exact ⟨hstep.1, hstep.2.1, hstep.2.2⟩
        · split
          · exact fold _ _ ⟨hstep.1, hstep.2.1, hstep.2.2⟩
          · exact ⟨hstep.1, hstep.2.1, hstep.2.2⟩

/-- The fuel is irrelevant as long as it exceeds the remaining depth
budget max_depth - current_depth, which the entry point's choice of
max_depth + 1 always does: the embedding computes the source's
depth-capped recursion, not an artefact of the fuel. -/
theorem crawlF_fuel_eq (site : String → Option NodeList) (conv : List Node → String)
    (ae : Bool) (m : Nat) :
    ∀ f1 f2 url d s, m - d < f1 → m - d < f2 →
      crawlF site conv ae m f1 url d s = crawlF site conv ae m f2 url d s := by
  intro f1
  induction f1 with
  | zero => intro f2 url d s h1 h2; omega
  | succ g1 ih =>
    intro f2 url d s h1 h2
    cases f2 with
    | zero => omega
    | succ g2 =>
      by_cases hv : url ∈ s.visited
      · simp [crawlF, hv]
      · simp only [crawlF, if_neg hv]
        cases hsite : site url <;> simp only [hsite]
        next soup =>
          cases hmc : selectMainContent soup <;> simp only [hmc]
          next mc =>
            by_cases hd : d < m
            · simp only [if_pos hd]
              have fold : ∀ (links : List String) (s' : CrawlState),
                  links.foldl (fun acc link =>
                    if link ∈ acc.visited then acc
                    else crawlF site conv ae m g1 link (d + 1) acc) s' =
                  links.foldl (fun acc link =>
                    if link ∈ acc.visited then acc
                    else crawlF site conv ae m g2 link (d + 1) acc) s' := by
                intro links
                induction links with
                | nil => intro s'; rfl
                | cons l ls ihl =>
                  intro s'
                  simp only [List.foldl_cons]
                  by_cases hl : l ∈ s'.visited
                  · simp only [if_pos hl]
                    exact ihl _
                  · simp only [if_neg hl]
                    rw [ih g2 l (d + 1) s' (by omega) (by omega)]
                    exact ihl _
              exact fold _ _
            · simp only [if_neg hd]

/-! ## Claim theorems -/

/-- C1: on the cyclic two-page link graph with maxDepth 3 the crawl
terminates (crawl_to_markdown is a total function) and visits and fetches
each of A and B exactly once; in general, on any link graph, visited
stays duplicate-free, every fetched URL was inserted into visited before
its fetch, and fetched stays duplicate-free, so every URL is visited at
most once and fetched at most once. -/
theorem crawl_cycle_visited_once :
    (∀ site conv ae m fuel url d s,
      s.visited.Nodup ∧ s.fetched ⊆ s.visited ∧ s.fetched.Nodup →
        ((crawlF site conv ae m fuel url d s).visited.Nodup ∧
          (crawlF site conv ae m fuel url d s).fetched ⊆
            (crawlF site conv ae m fuel url d s).visited ∧
          (crawlF site conv ae m fuel url d s).fetched.Nodup))
    ∧ (crawl_to_markdown siteCycle convText urlA 3 false).visited = [urlA, urlB]
    ∧ (crawl_to_markdown siteCycle convText urlA 3 false).fetched = [urlA, urlB] :=
  ⟨fun site conv ae m fuel url d s h => crawlF_inv site conv ae m fuel url d s h,
    by decide, by decide⟩

/-- Witness for C1 at the concrete cyclic site from the empty state. -/
theorem crawl_cycle_visited_once_witness :
    (crawlF siteCycle convText false 3 4 urlA 0 ⟨[], [], []⟩).visited.Nodup ∧
    (crawlF siteCycle convText false 3 4 urlA 0 ⟨[], [], []⟩).fetched ⊆
      (crawlF siteCycle convText false 3 4 urlA 0 ⟨[], [], []⟩).visited ∧
    (crawlF siteCycle convText false 3 4 urlA 0 ⟨[], [], []⟩).fetched.Nodup :=
  crawl_cycle_visited_once.1 siteCycle convText false 3 4 urlA 0 ⟨[], [], []⟩
    ⟨List.nodup_nil, by simp, List.nodup_nil⟩

/-- C2: with maxDepth 0 a crawl from any seed over any site visits and
fetches exactly the seed, whatever links the page contains, because the
recursion is guarded by depth being strictly below maxDepth. -/
theorem crawl_depth_zero_single_visit (site : String → Option NodeList)
    (conv : List Node → String) (ae : Bool) (url : String) :
    (crawl_to_markdown site conv url 0 ae).visited = [url] ∧
    (crawl_to_markdown site conv url 0 ae).fetched = [url] := by
  unfold crawl_to_markdown
  simp only [crawlF]
  cases hsite : site url with
  | none => simp [hsite]
  | some soup =>
    cases hmc : selectMainContent soup with
    | none => simp [hsite, hmc]
    | some mc => simp [hsite, hmc]

/-- C3 counterexample: on a document with no id "content", no main, no
article and no div of class "content", but with a span of class
"content" inside the body, the code selects the body while the claim's
any-tag class fallback dictates the span. -/
theorem selectMainContent_anytag_cex :
    (selectMainContent exDoc3).map Node.tagOf = some "body" ∧
    (selectMainContentClaim exDoc3).map Node.tagOf = some "span" ∧
    (findFirstP (fun n => n.hasClass "content") exDoc3).map Node.tagOf = some "span" ∧
    (selectMainContent exDoc3).map Node.tagOf ≠ (selectMainContentClaim exDoc3).map Node.tagOf := by
  refine ⟨by decide, by decide, by decide, by decide⟩

/-- C3 amended: the selector tries, in order, the element with id
"content", the first main, the first article, the first div (not any
tag) of class "content", then the body, and returns none when all five
are absent; on such a page the crawl reports nothing, writes no files
and only that branch stops, as the three-page site shows. -/
theorem selectMainContent_order_amended :
    (∀ soup, selectMainContent soup = selectMainContentSpec soup) ∧
    (selectMainContent (NodeList.ofList [el "html" [] [el "head" [] []]])).isNone = true ∧
    (crawl_to_markdown site3 convText url3a 3 false).visited = [url3a, url3nb, url3c] ∧
    ((crawl_to_markdown site3 convText url3a 3 false).writes).map Prod.fst =
      ["s3-example_a.md", "s3-example_c.md"] := by
  refine ⟨?_, by decide, by decide, by decide⟩
  intro soup
  cases h1 : findFirstP (fun n => n.attrVal "id" == some "content") soup with
  | some m => simp [selectMainContent, selectMainContentSpec, firstSome, h1]
  | none =>
    cases h2 : findFirstP (fun n => n.tagIs "main") soup with
    | some m => simp [selectMainContent, selectMainContentSpec, firstSome, h1, h2]
    | none =>
      cases h3 : findFirstP (fun n => n.tagIs "article") soup with
      | some m => simp [selectMainContent, selectMainContentSpec, firstSome, h1, h2, h3]
      | none =>
        cases h4 : findFirstP (fun n => n.tagIs "div" && n.hasClass "content") soup with
        | some m => simp [selectMainContent, selectMainContentSpec, firstSome, h1, h2, h3, h4]
        | none =>
          cases h5 : findFirstP (fun n => n.tagIs "body") soup with
          | some m => simp [selectMainContent, selectMainContentSpec, firstSome, h1, h2, h3, h4, h5]
          | none => simp [selectMainContent, selectMainContentSpec, firstSome, h1, h2, h3, h4, h5]

/-- C4 counterexample: the claim compares the scheme together with the
host, but the code compares only the netloc, so two URLs that differ
only in scheme are not classified as external. -/
theorem is_external_scheme_cex :
    specAuthority "http://a.com/y" ≠ specAuthority "https://a.com/x" ∧
    urlNetloc "http://a.com/y" ≠ "" ∧
    is_external_url "https://a.com/x" "http://a.com/y" = false := by
  refine ⟨by decide, by decide, by decide⟩

/-- C4 amended: is_external_url is true exactly when the netloc (host
with optional port, scheme excluded) differs and the candidate netloc is
non-empty; the spec's concrete examples hold. -/
theorem is_external_netloc_amended :
    (∀ base url, is_external_url base url = true ↔
      (urlNetloc base ≠ urlNetloc url ∧ urlNetloc url ≠ "")) ∧
    is_external_url "https://a.com/x" "https://a.com/y" = false ∧
    is_external_url "https://a.com/x" "https://b.com/y" = true ∧
    is_external_url "https://a.com/x" (urljoin "https://a.com/x" "/relative") = false := by
  refine ⟨?_, by decide, by decide, by decide⟩
  intro base url
  simp [is_external_url, ne_eq, Bool.and_eq_true]

/-- Witness for C4 at the spec's own cross-domain example. -/
theorem is_external_netloc_amended_witness :
    is_external_url "https://a.com/x" "https://b.com/y" = true :=
  (is_external_netloc_amended.1 "https://a.com/x" "https://b.com/y").mpr (by decide)

/-- C5: every retained section has a non-empty title that starts with no
skip-list entry and a non-empty body, and on the claim's concrete
content exactly one section (Intro, with one body node) is emitted. -/
theorem sections_skip_and_body :
    (∀ mc x, x ∈ (retainedSections mc).map sectionObs →
      x.2.1 ≠ "" ∧ (∀ sk ∈ skip_sections, strLeads x.2.1 sk = false) ∧ x.2.2 ≠ 0)
    ∧ (retainedSections exContent5).map sectionObs = [(0, "Intro", 1)] := by
  refine ⟨?_, by decide⟩
  intro mc x hx
  obtain ⟨c, hc, rfl⟩ := List.mem_map.1 hx
  obtain ⟨-, hp⟩ := List.mem_filter.1 hc
  simp only [Bool.and_eq_true, Bool.not_eq_true'] at hp
  obtain ⟨⟨h1, h2⟩, h3⟩ := hp
  simp only [sectionObs]
  refine ⟨beq_eq_false_iff_ne.1 h1, ?_, ?_⟩
  · intro sk hsk
    cases hlead : strLeads c.2.1 sk with
    | false => rfl
    | true =>
      have hany : (skip_sections.any fun sk => strLeads c.2.1 sk) = true :=
        List.any_eq_true.2 ⟨sk, hsk, hlead⟩
      rw [h2] at hany
      exact absurd hany (by simp)
  · have hne : c.2.2 ≠ [] := by
      intro hnil
      rw [hnil] at h3
      exact absurd h3 (by simp)
    exact fun hlen => hne (List.length_eq_zero.1 hlen)

/-- Witness for C5: applying the skip guarantee to the Intro section of
the concrete content at the skip-list entry References. -/
theorem sections_skip_and_body_witness :
    strLeads "Intro" "References" = false :=
  (sections_skip_and_body.1 exContent5 (0, "Intro", 1) (by decide)).2.1 "References" (by decide)

/-- Membership in the linksFilter output implies the blocklist test on the
lower-cased URL is false, since blocklisted URLs are skipped. -/
theorem linksFilter_blocklist (base : String) (ae : Bool) :
    ∀ hrefs u, u ∈ linksFilter base ae hrefs →
      (skip_patterns.any fun pat => strContains (pyLower u) pat) = false := by
  intro hrefs
  induction hrefs with
  | nil => intro u hu; simp [linksFilter] at hu
  | cons href rest ih =>
    intro u hu
    simp only [linksFilter] at hu
    split at hu
    · exact ih u hu
    · split at hu
      · exact ih u hu
      · split at hu
        · exact ih u hu
        · rcases List.mem_cons.1 hu with rfl | h
          · next hcond => exact Bool.eq_false_iff.2 hcond
          · exact ih u h

/-- C6: no URL returned by get_page_links contains a blocklist substring
in its lower-cased form, whatever the document, base URL and
allow_external flag; in particular the pdf link of the concrete page is
excluded for both flag values. -/
theorem links_blocklist_excluded :
    (∀ soup base ae u, u ∈ get_page_links soup base ae →
      ∀ pat ∈ skip_patterns, strContains (pyLower u) pat = false)
    ∧ get_page_links doc6 base6 true = ["https://site.com/ok"]
    ∧ get_page_links doc6 base6 false = ["https://site.com/ok"] := by
  refine ⟨?_, by decide, by decide⟩
  intro soup base ae u hu pat hpat
  unfold get_page_links at hu
  split at hu
  · exact absurd hu (List.not_mem_nil u)
  · have h := linksFilter_blocklist base ae _ u hu
    cases hb : strContains (pyLower u) pat with
    | false => rfl
    | true =>
      have hany : (skip_patterns.any fun p => strContains (pyLower u) p) = true :=
        List.any_eq_true.2 ⟨pat, hpat, hb⟩
      rw [h] at hany
      exact absurd hany (by simp)

/-- Witness for C6: the pdf URL itself, had it been returned for the
concrete page, would have to pass the blocklist test; applying the
theorem to the URL the page does return. -/
theorem links_blocklist_excluded_witness :
    strContains (pyLower "https://site.com/ok") "pdf" = false :=
  links_blocklist_excluded.1 doc6 base6 true "https://site.com/ok" (by decide) "pdf" (by decide)

/-- C7 counterexample: the section files are named with the inline heading
sanitiser, not with get_safe_filename applied to the heading text; for
the heading Intro the two disagree, and the claim's composed name is not
among the files written for the concrete page. -/
theorem section_filename_cex :
    get_safe_filename "Intro" "" = "_Intro" ∧
    (pageWrites convText url7 doc7 mc7).map Prod.fst =
      ["s7-example_page.md", "s7-example_page_Intro.md"] ∧
    (get_safe_filename url7 "" ++ "_" ++ get_safe_filename "Intro" "" ++ ".md") ∉
      (pageWrites convText url7 doc7 mc7).map Prod.fst := by
  refine ⟨by decide, by decide, by decide⟩

/-- C7 amended: the whole-page file is named safeName(url).md and starts
with the page-title header followed by the verbatim Source line and the
converted content; the file of the section at position i is named with
safeName(url), an underscore, the sanitised heading (not safeName of the
heading) and .md, with the same header convention using the heading. -/
theorem page_writes_shape_amended :
    (∀ (conv : List Node → String) url soup mc,
      (pageWrites conv url soup mc).head? =
        some (get_safe_filename url "" ++ ".md",
          "# " ++ pageTitle soup ++ "\n\nSource: " ++ url ++ "\n\n" ++ conv [mc]))
    ∧ (∀ (conv : List Node → String) url soup mc i, i < (retainedSections mc).length →
        (pageWrites conv url soup mc).get? (i + 1) =
          some (sectionFileName (get_safe_filename url "")
              ((retainedSections mc).getD i (0, "", [])).1
              ((retainedSections mc).getD i (0, "", [])).2.1,
            "# " ++ ((retainedSections mc).getD i (0, "", [])).2.1 ++ "\n\nSource: " ++ url ++
              "\n\n" ++ conv ((retainedSections mc).getD i (0, "", [])).2.2)) := by
  constructor
  · intro conv url soup mc; rfl
  · intro conv url soup mc i hi
    have hsec : (retainedSections mc).get? i =
        some ((retainedSections mc).getD i (0, "", [])) := by
      cases hg : (retainedSections mc).get? i with
      | none => exact absurd (List.get?_eq_none.1 hg) (by omega)
      | some v =>
        have hv : (retainedSections mc).getD i (0, "", []) = v := by
          rw [List.getD_eq_getD_get?, hg]
          rfl
        rw [hv]
    have h1 : (pageWrites conv url soup mc).get? (i + 1) =
        ((retainedSections mc).map (fun c =>
          (sectionFileName (get_safe_filename url "") c.1 c.2.1,
            "# " ++ c.2.1 ++ "\n\nSource: " ++ url ++ "\n\n" ++ conv c.2.2))).get? i := rfl
    rw [h1, List.get?_map, hsec]
    rfl

/-- Witness for C7 at the concrete one-section page, section index 0. -/
theorem page_writes_shape_amended_witness :
    (pageWrites convText url7 doc7 mc7).get? 1 =
      some (sectionFileName (get_safe_filename url7 "")
          ((retainedSections mc7).getD 0 (0, "", [])).1
          ((retainedSections mc7).getD 0 (0, "", [])).2.1,
        "# " ++ ((retainedSections mc7).getD 0 (0, "", [])).2.1 ++ "\n\nSource: " ++ url7 ++
          "\n\n" ++ convText ((retainedSections mc7).getD 0 (0, "", [])).2.2) :=
  page_writes_shape_amended.2 convText url7 doc7 mc7 0 (by decide)

/-- Two hexadecimal characters per byte. -/
theorem flatMap_byteHex_len (bs : List Nat) : (bs.flatMap byteHex).length = 2 * bs.length := by
  induction bs with
  | nil => rfl
  | cons b t ih =>
    simp only [List.flatMap_cons, List.length_append, byteHex, ih]
    simp [Nat.mul_succ]
    omega

/-- The hexadecimal digest always has 32 characters. -/
theorem md5hex_data_length (s : String) : (md5hex s).data.length = 32 := by
  simp only [md5hex]
  rw [flatMap_byteHex_len]
  simp [List.flatMap_cons]

/-- C8: whenever the sanitised base name is longer than 100 characters,
get_safe_filename returns its first 50 characters, an underscore and the
10 character prefix of the MD5 digest of the original URL (10 is within
the stated 8 to 10 range), with an underscore and the suffix appended
when the suffix is non-empty. -/
theorem safe_filename_truncation (url suffix : String)
    (h : 100 < (url_base_name url).length) :
    get_safe_filename url suffix =
      (if suffix == "" then
        String.mk ((url_base_name url).data.take 50) ++ "_" ++
          String.mk ((md5hex url).data.take 10)
      else
        (String.mk ((url_base_name url).data.take 50) ++ "_" ++
          String.mk ((md5hex url).data.take 10)) ++ "_" ++ suffix) ∧
    8 ≤ (String.mk ((md5hex url).data.take 10)).length ∧
    (String.mk ((md5hex url).data.take 10)).length ≤ 10 := by
  have hlen : (String.mk ((md5hex url).data.take 10)).length = 10 := by
    show ((md5hex url).data.take 10).length = 10
    rw [List.length_take, md5hex_data_length]
    rfl
  refine ⟨?_, by omega, by omega⟩
  simp only [get_safe_filename, if_pos h]

/-- Witness for C8 at a URL with a 163 character base name. -/
theorem safe_filename_truncation_witness :
    100 < (url_base_name url8).length ∧
    (get_safe_filename url8 "sec" =
      (if "sec" == "" then
        String.mk ((url_base_name url8).data.take 50) ++ "_" ++
          String.mk ((md5hex url8).data.take 10)
      else
        (String.mk ((url_base_name url8).data.take 50) ++ "_" ++
          String.mk ((md5hex url8).data.take 10)) ++ "_" ++ "sec") ∧
    8 ≤ (String.mk ((md5hex url8).data.take 10)).length ∧
    (String.mk ((md5hex url8).data.take 10)).length ≤ 10) :=
  ⟨by decide, safe_filename_truncation url8 "sec" (by decide)⟩

/-- String concatenation concatenates the character lists. -/
theorem strdata_append (a b : String) : (a ++ b).data = a.data ++ b.data := rfl

/-- Hexadecimal digit characters come from the fixed digit string. -/
theorem hexChar_mem (n : Nat) : hexChar n ∈ "0123456789abcdef".data := by
  unfold hexChar
  cases h : "0123456789abcdef".data.get? n with
  | none => rw [List.getD_eq_getD_get?, h]; decide
  | some c =>
    rw [List.getD_eq_getD_get?, h]
    exact List.get?_mem h

/-- Every character of the MD5 digest is a hexadecimal digit. -/
theorem md5hex_chars (s : String) : ∀ c ∈ (md5hex s).data, c ∈ "0123456789abcdef".data := by
  intro c hc
  simp only [md5hex, List.mem_flatMap] at hc
  obtain ⟨b, -, hcb⟩ := hc
  simp only [byteHex, List.mem_cons, List.not_mem_nil, or_false] at hcb
  rcases hcb with rfl | rfl
  · exact hexChar_mem _
  · exact hexChar_mem _

/-- The sanitised base name never contains a filesystem-illegal
character: the two substitution passes remove them all. -/
theorem url_base_name_chars (url : String) :
    ∀ c ∈ (url_base_name url).data, c ∉ illegalChars := by
  intro c hc
  simp only [url_base_name, List.mem_map] at hc
  obtain ⟨x, ⟨a, -, rfl⟩, rfl⟩ := hc
  by_cases hmem : a ∈ illegalChars
  · have hc1 : illegalChars.contains a = true := List.elem_iff.2 hmem
    simp only [hc1, if_true]
    decide
  · have hc1 : illegalChars.contains a = false := by
      cases hcc : illegalChars.contains a with
      | false => rfl
      | true => exact absurd (List.elem_iff.1 hcc) hmem
    simp only [hc1, Bool.false_eq_true, if_false]
    by_cases h2 : (a == '.' || a == ' ') = true
    · simp only [h2, if_true]
      decide
    · simp only [h2, Bool.false_eq_true, if_false]
      exact hmem

/-- C9: get_safe_filename is deterministic, and whenever the supplied
suffix itself is free of filesystem-illegal characters the whole result
is free of them; the URL-derived part is always safe. -/
theorem safe_filename_safe_amended :
    (∀ url suffix, get_safe_filename url suffix = get_safe_filename url suffix) ∧
    (∀ url suffix, (∀ c ∈ suffix.data, c ∉ illegalChars) →
      ∀ c ∈ (get_safe_filename url suffix).data, c ∉ illegalChars) := by
  refine ⟨fun url suffix => rfl, ?_⟩
  intro url suffix hsuf c hc
  have hhex : ∀ d ∈ "0123456789abcdef".data, d ∉ illegalChars := by decide
  have htrunc : ∀ d ∈ (String.mk ((url_base_name url).data.take 50) ++ "_" ++
      String.mk ((md5hex url).data.take 10)).data, d ∉ illegalChars := by
    intro d hd
    rw [strdata_append, strdata_append] at hd
    rcases List.mem_append.1 hd with hd1 | hd2
    · rcases List.mem_append.1 hd1 with hd3 | hd4
      · exact url_base_name_chars url d (List.mem_of_mem_take hd3)
      · have : d = '_' := by simpa using hd4
        subst this
        decide
    · exact hhex d (md5hex_chars url d (List.mem_of_mem_take hd2))
  simp only [get_safe_filename] at hc
  by_cases hlen : 100 < (url_base_name url).length
  · simp only [if_pos hlen] at hc
    by_cases hs : (suffix == "") = true
    · simp only [hs, if_true] at hc
      exact htrunc c hc
    · simp only [hs, Bool.false_eq_true, if_false] at hc
      rw [strdata_append, strdata_append] at hc
      rcases List.mem_append.1 hc with hc1 | hc2
      · rcases List.mem_append.1 hc1 with hc3 | hc4
        · exact htrunc c hc3
        · have : c = '_' := by simpa using hc4
          subst this
          decide
      · exact hsuf c hc2
  · simp only [if_neg hlen] at hc
    by_cases hs : (suffix == "") = true
    · simp only [hs, if_true] at hc
      exact url_base_name_chars url c hc
    · simp only [hs, Bool.false_eq_true, if_false] at hc
      rw [strdata_append, strdata_append] at hc
      rcases List.mem_append.1 hc with hc1 | hc2
      · rcases List.mem_append.1 hc1 with hc3 | hc4
        · exact url_base_name_chars url c hc3
        · have : c = '_' := by simpa using hc4
          subst this
          decide
      · exact hsuf c hc2

/-- Witness for C9: determinism and safety applied at a concrete URL,
suffix and character. -/
theorem safe_filename_safe_amended_witness :
    get_safe_filename "https://a.com" "sec" = get_safe_filename "https://a.com" "sec" ∧
    'a' ∉ illegalChars :=
  ⟨safe_filename_safe_amended.1 "https://a.com" "sec",
    safe_filename_safe_amended.2 "https://a.com" "sec" (by decide) 'a' (by decide)⟩

/-- C9 counterexample: with a suffix containing a slash the result
contains a filesystem-illegal character, so the claim quantified over
every suffix fails. -/
theorem safe_filename_suffix_unsafe_cex :
    '/' ∈ illegalChars ∧ '/' ∈ (get_safe_filename "https://a.com" "x/y").data := by
  refine ⟨by decide, by decide⟩

/-- Pushing a chunk appends its reconstruction lines; a discarded chunk
contributes no lines. -/
theorem chunkPush_lines (cur : MDAcc) (acc : List MDAcc) :
    (chunkPush cur acc).flatMap chunkLines = acc.flatMap chunkLines ++ chunkLines cur := by
  unfold chunkPush
  by_cases h : (cur.heading == "" && cur.content.isEmpty) = true
  · rw [if_pos h]
    simp only [Bool.and_eq_true] at h
    have h1 : cur.heading = "" := by simpa using h.1
    have h2 : cur.content = [] := by simpa using h.2
    simp [chunkLines, h1, h2]
  · rw [if_neg h]
    simp [chunkLines]

/-- A line recognised as a heading is non-empty. -/
theorem is_heading_true_ne_empty (line : String) (h : (is_heading line).1 = true) :
    line ≠ "" := by
  intro heq
  rw [heq] at h
  exact absurd h (by decide)

/-- An in-scope heading line is in particular a heading line. -/
theorem inScope_heading (maxLevel : Option Nat) (line : String)
    (h : inScope maxLevel line = true) : (is_heading line).1 = true := by
  unfold inScope at h
  rw [Bool.and_eq_true] at h
  exact h.1

/-- The accumulated chunks of splitCore reconstruct, line for line, the
already-emitted chunks, the current chunk and the remaining input. -/
theorem splitCore_lines (maxLevel : Option Nat) :
    ∀ (lines : List String) (cur : MDAcc) (acc : List MDAcc),
      (splitCore maxLevel lines cur acc).flatMap chunkLines =
        acc.flatMap chunkLines ++ chunkLines cur ++ lines := by
  intro lines
  induction lines with
  | nil => intro cur acc; simp [splitCore, chunkPush_lines]
  | cons line rest ih =>
    intro cur acc
    by_cases h : inScope maxLevel line = true
    · rw [splitCore, if_pos h, ih, chunkPush_lines]
      have hne : line ≠ "" := is_heading_true_ne_empty line (inScope_heading maxLevel line h)
      have hcl : chunkLines ⟨line, [], (is_heading line).2⟩ = [line] := by
        simp [chunkLines, beq_eq_false_iff_ne.2 hne]
      rw [hcl]
      simp
    · rw [splitCore, if_neg h, ih]
      have hcl : chunkLines { cur with content := cur.content ++ [line] } =
          chunkLines cur ++ [line] := by
        simp [chunkLines]
      rw [hcl]
      simp

/-- splitNLCs always returns at least one part. -/
theorem splitNLCs_ne_nil (cs : List Char) : splitNLCs cs ≠ [] := by
  cases cs with
  | nil => simp [splitNLCs]
  | cons c rest =>
    simp only [splitNLCs]
    cases splitNLCs rest with
    | nil => simp
    | cons h t =>
      by_cases hc : (c == '\n') = true
      · simp [hc]
      · simp [hc]

/-- Joining the newline split recovers the original character list. -/
theorem joinCs_splitNLCs (cs : List Char) : joinCs (splitNLCs cs) = cs := by
  induction cs with
  | nil => rfl
  | cons c rest ih =>
    simp only [splitNLCs]
    cases hr : splitNLCs rest with
    | nil => exact absurd hr (splitNLCs_ne_nil rest)
    | cons h t =>
      rw [hr] at ih
      show joinCs (if (c == '\n') = true then [] :: h :: t else (c :: h) :: t) = c :: rest
      by_cases hc : (c == '\n') = true
      · rw [if_pos hc]
        have hceq : c = '\n' := by simpa using hc
        simp only [joinCs, List.nil_append]
        rw [ih, hceq]
      · rw [if_neg hc]
        cases t with
        | nil =>
          have hh : h = rest := ih
          simp only [joinCs]
          rw [hh]
        | cons y ys =>
          simp only [joinCs] at ih ⊢
          rw [List.cons_append, ih]

/-- joinNL on strings agrees with joinCs on the underlying characters. -/
theorem joinNL_map_mk : ∀ l : List (List Char), joinNL (l.map String.mk) = String.mk (joinCs l) := by
  intro l
  induction l with
  | nil => rfl
  | cons x t ih =>
    cases t with
    | nil => rfl
    | cons y ys =>
      simp only [List.map_cons] at ih ⊢
      simp only [joinNL, joinCs]
      rw [ih]
      show String.mk ((x ++ ['\n']) ++ joinCs (y :: ys)) =
        String.mk (x ++ '\n' :: joinCs (y :: ys))
      exact congrArg String.mk (by simp)

/-- Joining the Python line split of a string recovers the string. -/
theorem joinNL_pySplitLines (s : String) : joinNL (pySplitLines s) = s := by
  unfold pySplitLines
  rw [joinNL_map_mk, joinCs_splitNLCs]

/-- C10 counterexample: two different inputs produce identical chunk
lists, because a chunk whose accumulated content was empty and one whose
content was a single empty line both store the joined content empty
string; hence no reconstruction from the returned chunks can be exact
for both inputs, and the claimed interleaving is not lossless. -/
theorem split_headings_not_injective_cex :
    split_by_headings "# A\n# B" none = split_by_headings "# A\n\n# B" none ∧
    ("# A\n# B" : String) ≠ "# A\n\n# B" := by
  refine ⟨by decide, by decide⟩

/-- C10 amended: split_by_headings is lossless at line granularity:
interleaving, in order over the chunks produced by the line loop, each
chunk's heading line (when non-empty) with the lines accumulated into
its content, and re-joining with newline, reproduces the input exactly;
the chunks returned by split_by_headings are these same chunks with the
content lines newline-joined, which is where the empty-content versus
single-empty-line distinction (and only it) is lost. -/
theorem split_headings_lossless_amended :
    (∀ content maxLevel,
      joinNL ((splitCore maxLevel (pySplitLines content) ⟨"", [], 0⟩ []).flatMap chunkLines) =
        content)
    ∧ (∀ content maxLevel, split_by_headings content maxLevel =
        (splitCore maxLevel (pySplitLines content) ⟨"", [], 0⟩ []).map
          (fun c => ⟨c.heading, joinNL c.content, c.level⟩)) := by
  constructor
  · intro content maxLevel
    rw [splitCore_lines]
    have hinit : chunkLines ⟨"", [], 0⟩ = [] := by simp [chunkLines]
    rw [hinit]
    simp only [List.flatMap_nil, List.nil_append, List.append_nil]
    exact joinNL_pySplitLines content
  · intro content maxLevel
    rfl
